import Mathlib

/-!
Shallow embedding of the convolutional sequence-to-sequence model implemented in
`NLP Challenges/5 - Convolutional Sequence to Sequence Learning.ipynb`
(Gehring et al., convolutional seq2seq, PyTorch tutorial style).

Modelling conventions:

* Tensors of shape `[batch, len, dim]` are modelled one batch element at a time:
  a sequence is a `List (List α)` — outer list over sequence positions, inner
  list over channels.  Every batched PyTorch operation in this notebook acts
  independently on batch elements, so the batch axis is an outer `map` that we
  drop.  The `permute(0, 2, 1)` calls in the source only swap the storage
  layout between `[batch, len, dim]` and `[batch, dim, len]`; in the
  position-major representation used here they are the identity and are not
  reproduced.
* Numeric entries live in an arbitrary linear ordered field `α` (instantiated
  at `ℚ` for concrete evaluation and at `ℝ` where the source computes a square
  root).  Floating point rounding is out of scope.
* `nn.Dropout` multiplies every entry by an independent random factor (`0` for
  dropped entries, `1/(1-p)` for kept ones) in training mode and is the
  identity in evaluation mode.  The random factors are passed in explicitly as
  a `Masks α` family indexed by (dropout call site, position, channel);
  dropout disabled corresponds to the all-ones family `noDropout`.
* The nonlinearities `torch.sigmoid` (inside `F.glu`) and `exp` (inside
  `F.softmax`) are passed in as function parameters `sig` and `expf`; the
  properties proved below hold for the library functions as special cases.
-/

variable {α : Type} [LinearOrderedField α]

/-- Dot product of two channel vectors (zip truncates at the shorter one). -/
def dotp (xs ys : List α) : α := (List.zipWith (· * ·) xs ys).sum

/-- A fully connected layer `nn.Linear`: weight rows `w` (one per output
channel) and bias `b`; output channel `o` is `dotp (w o) x + b o`. -/
def linearLayer (w : List (List α)) (b : List α) (x : List α) : List α :=
  List.zipWith (fun row bc => dotp row x + bc) w b

/-- Weights of one `nn.Conv1d` layer: `weight` is indexed
`[out channel][kernel position][in channel]`, `bias` by `[out channel]`. -/
structure Conv1dW (α : Type) where
  weight : List (List (List α))
  bias : List α

/-- One output position of a 1-d convolution: `win` is the kernel window, the
list of `k` consecutive input positions (each a channel vector). -/
def convAt (w : Conv1dW α) (win : List (List α)) : List α :=
  List.zipWith (fun wc bc => bc + (List.zipWith dotp wc win).sum) w.weight w.bias

/-- Valid (padding-free) 1-d convolution over the sequence axis with kernel
size `k`: output position `t` reads input positions `t, …, t + k - 1`. -/
def conv1dValid (w : Conv1dW α) (k : ℕ) (xs : List (List α)) : List (List α) :=
  (List.range (xs.length + 1 - k)).map fun t => convAt w ((xs.drop t).take k)

/-- Zero channel vector used by `nn.Conv1d`'s built-in symmetric padding. -/
def zeroVec (d : ℕ) : List α := List.replicate d 0

/-- Symmetric zero padding of `p` positions on each side, as performed by
`nn.Conv1d(..., padding = p)` with `d` input channels. -/
def symPad (p d : ℕ) (xs : List (List α)) : List (List α) :=
  List.replicate p (zeroVec d) ++ xs ++ List.replicate p (zeroVec d)

/-- Gated linear unit on one position: split the channel vector into two equal
halves `a` and `b`, output `a * sig b` elementwise (`F.glu` along channels). -/
def gluVec (sig : α → α) (v : List α) : List α :=
  List.zipWith (fun a b => a * sig b) (v.take (v.length / 2)) (v.drop (v.length / 2))

/-- `F.glu(x, dim = 1)`: the gated linear unit applied at every position. -/
def Fglu (sig : α → α) (xs : List (List α)) : List (List α) := xs.map (gluVec sig)

/-- Residual connection followed by the scale constant:
`(xs + ys) * scale` elementwise, the shape of every residual site in the
source (`(conved + conv_input) * self.scale` and friends). -/
def resScale (scale : α) (xs ys : List (List α)) : List (List α) :=
  List.zipWith (fun u v => List.zipWith (fun a b => (a + b) * scale) u v) xs ys

/-- Channel loop of one dropout call site: entry at channel `c` is multiplied
by the mask factor `m c`. -/
def dropoutRow (m : ℕ → α) : ℕ → List α → List α
  | _, [] => []
  | c, x :: xs => m c * x :: dropoutRow m (c + 1) xs

/-- Position loop of one dropout call site. -/
def dropoutRows (m : ℕ → ℕ → α) : ℕ → List (List α) → List (List α)
  | _, [] => []
  | p, row :: rest => dropoutRow (m p) 0 row :: dropoutRows m (p + 1) rest

/-- One dropout call site: entry at position `p`, channel `c` is multiplied by
the mask factor `m p c` (see the module docstring for the semantics). -/
def dropoutApply (m : ℕ → ℕ → α) (xs : List (List α)) : List (List α) :=
  dropoutRows m 0 xs

/-- A family of dropout mask factors indexed by (call site, position, channel). -/
abbrev Masks (α : Type) := ℕ → ℕ → ℕ → α

/-- Dropout disabled: every mask factor is `1` (evaluation-mode `nn.Dropout`). -/
def noDropout : Masks α := fun _ _ _ => 1

/-- Total embedding-table lookup used inside the forward passes
(`nn.Embedding`); an out-of-range index yields `[]` here, where the framework
raises — `embLookupChecked` is the fallible view used to reason about that. -/
def embLookup (table : List (List α)) (i : ℕ) : List α := table.getD i []

/-- Fallible embedding lookup: `none` models the framework's
index-out-of-range error for an embedding table. -/
def embLookupChecked (table : List (List α)) (i : ℕ) : Option (List α) := table[i]?

/-- The position tensor `torch.arange(0, len)` built by `Encoder.forward` and
`Decoder.forward` (one batch row of `pos`). -/
def posTensor (len : ℕ) : List ℕ := List.range len

/-- Parameters and hyperparameters held by `Encoder` after `__init__`.
`convs.length` plays the role of `n_layers`. -/
structure EncoderCfg (α : Type) where
  inputDim : ℕ
  embDim : ℕ
  hidDim : ℕ
  kernelSize : ℕ
  maxLength : ℕ
  dropoutP : α
  scale : α
  tokEmbedding : List (List α)
  posEmbedding : List (List α)
  emb2hidW : List (List α)
  emb2hidB : List α
  hid2embW : List (List α)
  hid2embB : List α
  convs : List (Conv1dW α)

/-- `Encoder.__init__`: runs `assert kernel_size % 2 == 1, "Kernel size must be
odd!"` and then registers the parameter tensors (passed in here, since their
random initialization is external).  An even kernel size fails the assert,
modelled as `none`. -/
def encoderInit (inputDim embDim hidDim kernelSize maxLength : ℕ) (dropoutP scale : α)
    (tokE posE : List (List α)) (e2hW : List (List α)) (e2hB : List α)
    (h2eW : List (List α)) (h2eB : List α) (convs : List (Conv1dW α)) :
    Option (EncoderCfg α) :=
  if kernelSize % 2 = 1 then
    some { inputDim, embDim, hidDim, kernelSize, maxLength, dropoutP, scale,
           tokEmbedding := tokE, posEmbedding := posE,
           emb2hidW := e2hW, emb2hidB := e2hB, hid2embW := h2eW, hid2embB := h2eB,
           convs }
  else none

/-- The token-plus-position embedding stage shared verbatim by
`Encoder.forward` and `Decoder.forward`:
`embedded = self.dropout(tok_embedded + pos_embedded)`. -/
def embedTokens (tokTable posTable : List (List α)) (m : ℕ → ℕ → α) (toks : List ℕ) :
    List (List α) :=
  dropoutApply m
    (List.zipWith (List.zipWith (· + ·))
      (toks.map (embLookup tokTable))
      ((posTensor toks.length).map (embLookup posTable)))

/-- One encoder convolutional block: dropout, symmetrically padded convolution,
GLU, then the residual with the pre-dropout input, scaled:
`conved = conv(self.dropout(conv_input)); conved = F.glu(conved, dim = 1);
conved = (conved + conv_input) * self.scale`. -/
def encoderBlock (sig : α → α) (cfg : EncoderCfg α) (m : ℕ → ℕ → α) (w : Conv1dW α)
    (x : List (List α)) : List (List α) :=
  resScale cfg.scale
    (Fglu sig (conv1dValid w cfg.kernelSize
      (symPad ((cfg.kernelSize - 1) / 2) cfg.hidDim (dropoutApply m x))))
    x

/-- The encoder's `for i, conv in enumerate(self.convs)` loop; `i` is the
dropout call-site index of the current block. -/
def encoderBlocks (sig : α → α) (cfg : EncoderCfg α) (m : Masks α) :
    ℕ → List (Conv1dW α) → List (List α) → List (List α)
  | _, [], x => x
  | i, w :: ws, x => encoderBlocks sig cfg m (i + 1) ws (encoderBlock sig cfg (m i) w x)

/-- `Encoder.forward` for one batch element: embed, project to hidden width,
run the block loop, project back, and return `(conved, combined)` where
`combined = (conved + embedded) * self.scale`. -/
def encoderForward (sig : α → α) (cfg : EncoderCfg α) (m : Masks α) (src : List ℕ) :
    List (List α) × List (List α) :=
  let embedded := embedTokens cfg.tokEmbedding cfg.posEmbedding (m 0) src
  let convInput := embedded.map (linearLayer cfg.emb2hidW cfg.emb2hidB)
  let convOut := encoderBlocks sig cfg m 1 cfg.convs convInput
  let conved := convOut.map (linearLayer cfg.hid2embW cfg.hid2embB)
  (conved, resScale cfg.scale conved embedded)

/-- Parameters and hyperparameters held by `Decoder` after `__init__`. -/
structure DecoderCfg (α : Type) where
  outputDim : ℕ
  embDim : ℕ
  hidDim : ℕ
  kernelSize : ℕ
  maxLength : ℕ
  trgPadIdx : ℕ
  dropoutP : α
  scale : α
  tokEmbedding : List (List α)
  posEmbedding : List (List α)
  emb2hidW : List (List α)
  emb2hidB : List α
  hid2embW : List (List α)
  hid2embB : List α
  attnHid2embW : List (List α)
  attnHid2embB : List α
  attnEmb2hidW : List (List α)
  attnEmb2hidB : List α
  fcOutW : List (List α)
  fcOutB : List α
  convs : List (Conv1dW α)

/-- `Decoder.__init__`: registers the parameter tensors.  Unlike the encoder
there is no kernel-size assert in the source, hence no failure branch. -/
def decoderInit (outputDim embDim hidDim kernelSize maxLength trgPadIdx : ℕ)
    (dropoutP scale : α) (tokE posE : List (List α))
    (e2hW : List (List α)) (e2hB : List α) (h2eW : List (List α)) (h2eB : List α)
    (a1W : List (List α)) (a1B : List α) (a2W : List (List α)) (a2B : List α)
    (foW : List (List α)) (foB : List α) (convs : List (Conv1dW α)) :
    Option (DecoderCfg α) :=
  some { outputDim, embDim, hidDim, kernelSize, maxLength, trgPadIdx, dropoutP, scale,
         tokEmbedding := tokE, posEmbedding := posE,
         emb2hidW := e2hW, emb2hidB := e2hB, hid2embW := h2eW, hid2embB := h2eB,
         attnHid2embW := a1W, attnHid2embB := a1B, attnEmb2hidW := a2W, attnEmb2hidB := a2B,
         fcOutW := foW, fcOutB := foB, convs }

/-- One row of `F.softmax(energy, dim = 2)` (the softmax acts rowwise over the
source axis): exponentiate with `expf` and divide by the row total. -/
def softmaxRow (expf : α → α) (xs : List α) : List α :=
  (xs.map expf).map fun e => e / (xs.map expf).sum

/-- Weighted sum of the rows of a matrix with `d` columns: one target-position
row of `torch.matmul(attention, encoder_combined)`. -/
def matVec (d : ℕ) (w : List α) (rows : List (List α)) : List α :=
  (List.zipWith (fun c row => row.map fun x => c * x) w rows).foldr
    (fun v acc => List.zipWith (· + ·) v acc) (List.replicate d 0)

/-- `Decoder.calculate_attention`: project the post-GLU hidden state to
embedding width, residual-add the embedding and scale, take dot-product
energies against `encoder_conved`, softmax over the source axis, attend over
`encoder_combined`, project back to hidden width, and residual-add to the
pre-attention `conved`, scaled.  Returns `(attention, attended_combined)`. -/
def calculateAttention (expf : α → α) (cfg : DecoderCfg α)
    (embedded conved encoderConved encoderCombined : List (List α)) :
    List (List α) × List (List α) :=
  let convedEmb := conved.map (linearLayer cfg.attnHid2embW cfg.attnHid2embB)
  let combined := resScale cfg.scale convedEmb embedded
  let energy := combined.map fun q => encoderConved.map fun kv => dotp q kv
  let attention := energy.map (softmaxRow expf)
  let attended := attention.map fun arow => matVec cfg.embDim arow encoderCombined
  let attended' := attended.map (linearLayer cfg.attnEmb2hidW cfg.attnEmb2hidB)
  (attention, resScale cfg.scale conved attended')

/-- The causal padding rows prepended in every decoder block:
`torch.zeros(batch_size, hid_dim, self.kernel_size - 1).fill_(self.trg_pad_idx)`
— `kernel_size - 1` positions, each a hidden-width row holding the raw
numeric pad index. -/
def decoderPadding (cfg : DecoderCfg α) : List (List α) :=
  List.replicate (cfg.kernelSize - 1) (List.replicate cfg.hidDim (cfg.trgPadIdx : α))

/-- `padded_conv_input = torch.cat((padding, conv_input), dim = 2)`: the pad
rows go in front, nothing is appended. -/
def decoderPadded (cfg : DecoderCfg α) (x : List (List α)) : List (List α) :=
  decoderPadding cfg ++ x

/-- One decoder convolutional block: dropout, causal front padding, valid
convolution, GLU, attention, then the residual with the post-dropout input,
scaled.  Returns `(attention, block output)`. -/
def decoderBlock (sig expf : α → α) (cfg : DecoderCfg α) (m : ℕ → ℕ → α)
    (encoderConved encoderCombined embedded : List (List α)) (w : Conv1dW α)
    (x : List (List α)) : List (List α) × List (List α) :=
  let x' := dropoutApply m x
  let conved := Fglu sig (conv1dValid w cfg.kernelSize (decoderPadded cfg x'))
  let r := calculateAttention expf cfg embedded conved encoderConved encoderCombined
  (r.1, resScale cfg.scale r.2 x')

/-- The decoder's block loop; the state is `(attention, conv_input)`, each
iteration overwriting both exactly as the python loop does.  (With zero
layers the python would hit a `NameError` on `attention`; the configured model
always has at least one layer, and the initial `[]` is never read then.) -/
def decoderBlocks (sig expf : α → α) (cfg : DecoderCfg α) (m : Masks α)
    (encoderConved encoderCombined embedded : List (List α)) :
    ℕ → List (Conv1dW α) → List (List α) × List (List α) → List (List α) × List (List α)
  | _, [], s => s
  | i, w :: ws, s =>
      decoderBlocks sig expf cfg m encoderConved encoderCombined embedded (i + 1) ws
        (decoderBlock sig expf cfg (m i) encoderConved encoderCombined embedded w s.2)

/-- `Decoder.forward` for one batch element: embed, project to hidden width,
run the block loop, project back, dropout, and apply `fc_out`.  Returns
`(output logits, attention of the last block)`. -/
def decoderForward (sig expf : α → α) (cfg : DecoderCfg α) (m : Masks α) (trg : List ℕ)
    (encoderConved encoderCombined : List (List α)) :
    List (List α) × List (List α) :=
  let embedded := embedTokens cfg.tokEmbedding cfg.posEmbedding (m 0) trg
  let convInput := embedded.map (linearLayer cfg.emb2hidW cfg.emb2hidB)
  let s := decoderBlocks sig expf cfg m encoderConved encoderCombined embedded 1 cfg.convs
             ([], convInput)
  let conved := s.2.map (linearLayer cfg.hid2embW cfg.hid2embB)
  ((dropoutApply (m (cfg.convs.length + 1)) conved).map (linearLayer cfg.fcOutW cfg.fcOutB),
   s.1)

/-- The whole model: `Seq2Seq` holds the encoder and the decoder; the
`training` flag is the shared `nn.Module` mode toggled by `model.train()` /
`model.eval()`. -/
structure Seq2SeqModel (α : Type) where
  training : Bool
  enc : EncoderCfg α
  dec : DecoderCfg α

/-- `Seq2Seq.forward`: run the encoder once, then the decoder once on the
(already truncated) target, returning `(output, attention)`. -/
def seq2seqForward (sig expf : α → α) (M : Seq2SeqModel α) (mEnc mDec : Masks α)
    (src trg : List ℕ) : List (List α) × List (List α) :=
  let e := encoderForward sig M.enc mEnc src
  decoderForward sig expf M.dec mDec trg e.1 e.2

/-- The mask family a dropout site actually applies: the drawn random factors
when the module is in training mode, all ones in evaluation mode — exactly
`nn.Dropout`'s dependence on `module.training`. -/
def modeMasks (training : Bool) (m : Masks α) : Masks α :=
  if training then m else fun _ _ _ => 1

/-- `model.train()`, called at the top of the source's `train` function. -/
def setTrainMode (M : Seq2SeqModel α) : Seq2SeqModel α := { M with training := true }

/-- The model object as it enters `evaluate` inside the epoch loop: `train`
has just run (calling `model.train()`), and `evaluate` performs no mode
switch of its own — the source's `evaluate` contains no `model.eval()`. -/
def epochEvalModel (M : Seq2SeqModel α) : Seq2SeqModel α := setTrainMode M

/-- The logits computed by one forward pass inside `evaluate`: the dropout
sites are gated by the model's current `training` flag, which `evaluate`
leaves untouched. -/
def evaluateLogits (sig expf : α → α) (M : Seq2SeqModel α) (mEnc mDec : Masks α)
    (src trg : List ℕ) : List (List α) :=
  (seq2seqForward sig expf M (modeMasks M.training mEnc) (modeMasks M.training mDec) src trg).1

/-- State of the epoch loop of the training cell: the model parameters, the
best loss so far (`none` models the initial `float('inf')`), the contents of
the checkpoint file `tut5-model.pt` (`none` = not yet written), and, for the
statement of the claim, the per-epoch record of whether `torch.save` ran. -/
structure TrainLoopState (P L : Type) where
  model : P
  best : Option L
  saved : Option P
  writes : List Bool

/-- The loop's test `valid_loss < best_valid_loss`, with `best_valid_loss`
initially `float('inf')`. -/
def improvesBest {L : Type} [LinearOrder L] (v : L) : Option L → Bool
  | none => true
  | some b => decide (v < b)

/-- One epoch of the source's training loop: update the parameters with
`train(model, train_iterator, …)`, then compute
`valid_loss = evaluate(model, train_iterator, criterion)` — the source passes
`train_iterator`, not `valid_iterator`, to `evaluate` — and checkpoint on
strict improvement of that quantity. -/
def epochStep {P D L : Type} [LinearOrder L] (trainUpd : P → P) (evalLoss : P → D → L)
    (trainData : D) (s : TrainLoopState P L) : TrainLoopState P L :=
  let m := trainUpd s.model
  let v := evalLoss m trainData
  if improvesBest v s.best then
    { model := m, best := some v, saved := some m, writes := s.writes ++ [true] }
  else
    { model := m, best := s.best, saved := s.saved, writes := s.writes ++ [false] }

/-- The `for epoch in range(N_EPOCHS)` loop. -/
def runTraining {P D L : Type} [LinearOrder L] (n : ℕ) (trainUpd : P → P)
    (evalLoss : P → D → L) (trainData : D) (init : P) : TrainLoopState P L :=
  (List.range n).foldl (fun s _ => epochStep trainUpd evalLoss trainData s)
    { model := init, best := none, saved := none, writes := [] }

/-- `model.load_state_dict(torch.load('tut5-model.pt'))` after the loop:
restores whatever the checkpoint file last held. -/
def loadBest {P L : Type} (s : TrainLoopState P L) : Option P := s.saved

/-- Modelled over ℝ: `self.scale = torch.sqrt(torch.FloatTensor([0.5]))` in
`Encoder.__init__` (the exact real value of the constant). -/
noncomputable def encoderScaleConst : ℝ := Real.sqrt 0.5

/-- Modelled over ℝ: the identical assignment in `Decoder.__init__`; the
attention bridge `calculate_attention` reads this same decoder `self.scale`. -/
noncomputable def decoderScaleConst : ℝ := Real.sqrt 0.5

/-- Two sequences of equal length that agree on their first `n` positions:
the invariant propagated through the decoder in the causality proof. -/
def PrefEq {β : Type} (n : ℕ) (xs ys : List β) : Prop :=
  xs.length = ys.length ∧ xs.take n = ys.take n

/-- Shape well-formedness of the encoder parameters, exactly as
`Encoder.__init__` creates them. -/
structure EncoderWF (cfg : EncoderCfg α) : Prop where
  tok_len : cfg.tokEmbedding.length = cfg.inputDim
  tok_rows : ∀ r ∈ cfg.tokEmbedding, r.length = cfg.embDim
  pos_len : cfg.posEmbedding.length = cfg.maxLength
  pos_rows : ∀ r ∈ cfg.posEmbedding, r.length = cfg.embDim
  e2hW_len : cfg.emb2hidW.length = cfg.hidDim
  e2hB_len : cfg.emb2hidB.length = cfg.hidDim
  h2eW_len : cfg.hid2embW.length = cfg.embDim
  h2eB_len : cfg.hid2embB.length = cfg.embDim

-- concrete instances used by the witnesses ---------------------------------

/-- A tiny concrete kernel-size-3 convolution layer over ℚ used in witnesses
(one input channel, two output channels, all weights 1, zero bias). -/
def qConv3 : Conv1dW ℚ :=
  { weight := [[[1], [1], [1]], [[1], [1], [1]]], bias := [0, 0] }

/-- A tiny concrete decoder configuration over ℚ (kernel size 3, one channel)
used in witnesses. -/
def qDec3 : DecoderCfg ℚ :=
  { outputDim := 3, embDim := 1, hidDim := 1, kernelSize := 3, maxLength := 4,
    trgPadIdx := 0, dropoutP := 0, scale := 1,
    tokEmbedding := [[0], [1], [2]], posEmbedding := [[0], [0], [0], [0]],
    emb2hidW := [[1]], emb2hidB := [0], hid2embW := [[1]], hid2embB := [0],
    attnHid2embW := [[1]], attnHid2embB := [0], attnEmb2hidW := [[1]], attnEmb2hidB := [0],
    fcOutW := [[1], [1], [1]], fcOutB := [0, 0, 0], convs := [qConv3] }

/-- A tiny concrete kernel-size-3 encoder configuration over ℚ. -/
def qEnc3 : EncoderCfg ℚ :=
  { inputDim := 3, embDim := 1, hidDim := 1, kernelSize := 3, maxLength := 4,
    dropoutP := 0, scale := 1,
    tokEmbedding := [[0], [1], [2]], posEmbedding := [[0], [0], [0], [0]],
    emb2hidW := [[1]], emb2hidB := [0], hid2embW := [[1]], hid2embB := [0],
    convs := [qConv3] }

/-- A tiny concrete model over ℚ, in evaluation mode (`training = false`). -/
def qModel : Seq2SeqModel ℚ := { training := false, enc := qEnc3, dec := qDec3 }

/-- A dropout draw that zeroes every entry (every Bernoulli sample at dropout
probability 0.99 came up dropped). -/
def zeroMasks : Masks ℚ := fun _ _ _ => 0

/-- A concrete loss table for the epoch loop: parameters advance `0 → 1 → 2`;
the loss `evaluate` computes on the training iterator (`true`) stays at 5,
while the loss on the validation iterator (`false`) drops from 5 to 1 at the
second epoch. -/
def exLoss : ℕ → Bool → ℕ := fun p d => if d then 5 else if p ≤ 1 then 5 else 1

-- ### helper lemmas --------------------------------------------------------

theorem conv1dValid_length (w : Conv1dW α) (k : ℕ) (xs : List (List α)) :
    (conv1dValid w k xs).length = xs.length + 1 - k := by
  simp [conv1dValid]

theorem decoderPadding_length (cfg : DecoderCfg α) :
    (decoderPadding cfg).length = cfg.kernelSize - 1 := by
  simp [decoderPadding]

theorem mem_zipWith_decomp {β γ δ : Type} {f : β → γ → δ} {as : List β} {bs : List γ} {x : δ}
    (h : x ∈ List.zipWith f as bs) : ∃ a ∈ as, ∃ b ∈ bs, f a b = x := by
  induction as generalizing bs with
  | nil => simp [List.zipWith] at h
  | cons a as ih =>
      cases bs with
      | nil => simp [List.zipWith] at h
      | cons b bs =>
          simp only [List.zipWith_cons_cons, List.mem_cons] at h
          rcases h with h | h
          · exact ⟨a, by simp, b, by simp, h.symm⟩
          · obtain ⟨a', ha, b', hb, hx⟩ := ih h
            exact ⟨a', by simp [ha], b', by simp [hb], hx⟩

theorem dropoutRow_length (m : ℕ → α) (c : ℕ) (v : List α) :
    (dropoutRow m c v).length = v.length := by
  induction v generalizing c with
  | nil => rfl
  | cons x xs ih => simp [dropoutRow, ih]

theorem dropoutRows_length (m : ℕ → ℕ → α) (p : ℕ) (xs : List (List α)) :
    (dropoutRows m p xs).length = xs.length := by
  induction xs generalizing p with
  | nil => rfl
  | cons r rest ih => simp [dropoutRows, ih]

theorem dropoutApply_length (m : ℕ → ℕ → α) (xs : List (List α)) :
    (dropoutApply m xs).length = xs.length := dropoutRows_length m 0 xs

theorem dropoutRows_row_length (m : ℕ → ℕ → α) (d : ℕ) (p : ℕ) (xs : List (List α))
    (h : ∀ r ∈ xs, r.length = d) : ∀ r ∈ dropoutRows m p xs, r.length = d := by
  induction xs generalizing p with
  | nil => simp [dropoutRows]
  | cons r rest ih =>
      intro s hs
      simp only [dropoutRows, List.mem_cons] at hs
      rcases hs with h1 | h2
      · rw [h1, dropoutRow_length]; exact h r (by simp)
      · exact ih (p + 1) (fun t ht => h t (by simp [ht])) s h2

theorem dropoutApply_row_length (m : ℕ → ℕ → α) (d : ℕ) (xs : List (List α))
    (h : ∀ r ∈ xs, r.length = d) : ∀ r ∈ dropoutApply m xs, r.length = d :=
  dropoutRows_row_length m d 0 xs h

theorem linearLayer_length (w : List (List α)) (b : List α) (x : List α) :
    (linearLayer w b x).length = min w.length b.length := by
  simp [linearLayer]

theorem symPad_length (p d : ℕ) (xs : List (List α)) :
    (symPad p d xs).length = xs.length + 2 * p := by
  simp [symPad]; omega

theorem Fglu_length (sig : α → α) (xs : List (List α)) :
    (Fglu sig xs).length = xs.length := by
  simp [Fglu]

theorem resScale_length (s : α) (xs ys : List (List α)) :
    (resScale s xs ys).length = min xs.length ys.length := by
  simp [resScale]

theorem resScale_row_length (s : α) (d : ℕ) (xs ys : List (List α))
    (hx : ∀ r ∈ xs, r.length = d) (hy : ∀ r ∈ ys, r.length = d) :
    ∀ r ∈ resScale s xs ys, r.length = d := by
  intro r hr
  obtain ⟨u, hu, v, hv, rfl⟩ := mem_zipWith_decomp hr
  rw [List.length_zipWith, hx u hu, hy v hv, min_self]

theorem embLookup_length (table : List (List α)) (d i : ℕ)
    (hrows : ∀ r ∈ table, r.length = d) (hi : i < table.length) :
    (embLookup table i).length = d := by
  rw [embLookup, List.getD_eq_getElem table [] hi]
  exact hrows _ (List.getElem_mem hi)

theorem embedTokens_length (tT pT : List (List α)) (m : ℕ → ℕ → α) (toks : List ℕ) :
    (embedTokens tT pT m toks).length = toks.length := by
  simp [embedTokens, dropoutApply_length, posTensor]

theorem embedTokens_row_length (tT pT : List (List α)) (m : ℕ → ℕ → α) (toks : List ℕ)
    (d : ℕ) (htokT : ∀ r ∈ tT, r.length = d) (hposT : ∀ r ∈ pT, r.length = d)
    (htok : ∀ t ∈ toks, t < tT.length) (hlen : toks.length ≤ pT.length) :
    ∀ r ∈ embedTokens tT pT m toks, r.length = d := by
  rw [embedTokens]
  apply dropoutApply_row_length
  intro r hr
  obtain ⟨a, ha, b, hb, rfl⟩ := mem_zipWith_decomp hr
  obtain ⟨t, ht, rfl⟩ := List.mem_map.1 ha
  obtain ⟨i, hi, rfl⟩ := List.mem_map.1 hb
  have hiLt : i < pT.length := by
    have : i < toks.length := by simpa [posTensor] using hi
    omega
  rw [List.length_zipWith, embLookup_length tT d t htokT (htok t ht),
    embLookup_length pT d i hposT hiLt, min_self]

theorem encoderBlock_length (sig : α → α) (cfg : EncoderCfg α) (m : ℕ → ℕ → α)
    (w : Conv1dW α) (x : List (List α)) (hodd : cfg.kernelSize % 2 = 1) :
    (encoderBlock sig cfg m w x).length = x.length := by
  rw [encoderBlock, resScale_length, Fglu_length, conv1dValid_length, symPad_length,
    dropoutApply_length]
  omega

theorem encoderBlocks_length (sig : α → α) (cfg : EncoderCfg α) (m : Masks α)
    (hodd : cfg.kernelSize % 2 = 1) :
    ∀ (ws : List (Conv1dW α)) (i : ℕ) (x : List (List α)),
      (encoderBlocks sig cfg m i ws x).length = x.length := by
  intro ws
  induction ws with
  | nil => intro i x; rfl
  | cons w ws ih =>
      intro i x
      rw [encoderBlocks, ih, encoderBlock_length sig cfg (m i) w x hodd]

theorem sum_map_div (l : List α) (c : α) : (l.map fun e => e / c).sum = l.sum / c := by
  induction l with
  | nil => simp
  | cons x xs ih => simp [ih, add_div]

theorem expSum_pos (expf : α → α) (xs : List α) (hpos : ∀ x, 0 < expf x) (hne : xs ≠ []) :
    0 < (xs.map expf).sum := by
  apply List.sum_pos
  · intro y hy
    obtain ⟨x, _, rfl⟩ := List.mem_map.1 hy
    exact hpos x
  · simpa using hne

theorem softmaxRow_length (expf : α → α) (xs : List α) :
    (softmaxRow expf xs).length = xs.length := by
  simp [softmaxRow]

theorem softmaxRow_sum (expf : α → α) (xs : List α) (hpos : ∀ x, 0 < expf x)
    (hne : xs ≠ []) : (softmaxRow expf xs).sum = 1 := by
  rw [softmaxRow, sum_map_div, div_self (ne_of_gt (expSum_pos expf xs hpos hne))]

theorem softmaxRow_pos (expf : α → α) (xs : List α) (hpos : ∀ x, 0 < expf x)
    (hne : xs ≠ []) : ∀ w ∈ softmaxRow expf xs, 0 < w := by
  intro w hw
  rw [softmaxRow] at hw
  obtain ⟨e, he, rfl⟩ := List.mem_map.1 hw
  obtain ⟨x, _, rfl⟩ := List.mem_map.1 he
  exact div_pos (hpos x) (expSum_pos expf xs hpos hne)

theorem calculateAttention_fst (expf : α → α) (cfg : DecoderCfg α)
    (embedded conved eC eCb : List (List α)) :
    (calculateAttention expf cfg embedded conved eC eCb).1 =
      ((resScale cfg.scale (conved.map (linearLayer cfg.attnHid2embW cfg.attnHid2embB))
          embedded).map fun q => eC.map fun kv => dotp q kv).map (softmaxRow expf) := rfl

theorem calculateAttention_snd (expf : α → α) (cfg : DecoderCfg α)
    (embedded conved eC eCb : List (List α)) :
    (calculateAttention expf cfg embedded conved eC eCb).2 =
      resScale cfg.scale conved
        (((calculateAttention expf cfg embedded conved eC eCb).1.map
            fun arow => matVec cfg.embDim arow eCb).map
          (linearLayer cfg.attnEmb2hidW cfg.attnEmb2hidB)) := rfl

-- prefix-equality machinery for the causality proof ------------------------

theorem PrefEq.refl {β : Type} (n : ℕ) (xs : List β) : PrefEq n xs xs := ⟨rfl, rfl⟩

theorem PrefEq.map {β γ : Type} {n : ℕ} {xs ys : List β} (f : β → γ) (h : PrefEq n xs ys) :
    PrefEq n (xs.map f) (ys.map f) := by
  obtain ⟨h1, h2⟩ := h
  exact ⟨by simp [h1], by rw [← List.map_take, ← List.map_take, h2]⟩

theorem PrefEq.zipWith {β γ δ : Type} {n : ℕ} {as bs : List β} {cs ds : List γ}
    (f : β → γ → δ) (h1 : PrefEq n as bs) (h2 : PrefEq n cs ds) :
    PrefEq n (List.zipWith f as cs) (List.zipWith f bs ds) := by
  obtain ⟨l1, t1⟩ := h1
  obtain ⟨l2, t2⟩ := h2
  refine ⟨by simp [l1, l2], ?_⟩
  rw [List.take_zipWith, List.take_zipWith, t1, t2]

theorem dropoutRows_take (m : ℕ → ℕ → α) (p n : ℕ) (xs : List (List α)) :
    (dropoutRows m p xs).take n = dropoutRows m p (xs.take n) := by
  induction xs generalizing p n with
  | nil => simp [dropoutRows]
  | cons r rest ih =>
      cases n with
      | zero => simp [dropoutRows]
      | succ k => simp [dropoutRows, List.take_succ_cons, ih]

theorem dropoutApply_prefEq (m : ℕ → ℕ → α) {n : ℕ} {xs ys : List (List α)}
    (h : PrefEq n xs ys) : PrefEq n (dropoutApply m xs) (dropoutApply m ys) := by
  obtain ⟨h1, h2⟩ := h
  refine ⟨by simp [dropoutApply_length, h1], ?_⟩
  rw [dropoutApply, dropoutApply, dropoutRows_take, dropoutRows_take, h2]

theorem resScale_prefEq (s : α) {n : ℕ} {as bs cs ds : List (List α)}
    (h1 : PrefEq n as bs) (h2 : PrefEq n cs ds) :
    PrefEq n (resScale s as cs) (resScale s bs ds) := by
  unfold resScale
  exact PrefEq.zipWith _ h1 h2

theorem window_take_eq {β : Type} {l1 l2 : List β} (t k : ℕ)
    (h : l1.take (t + k) = l2.take (t + k)) :
    (l1.drop t).take k = (l2.drop t).take k := by
  rw [List.take_drop t k l1, List.take_drop t k l2, h]

theorem conv1dValid_front_pad_prefEq (w : Conv1dW α) (k n : ℕ) (pad : List (List α))
    {xs ys : List (List α)} (hpad : pad.length + 1 = k) (h : PrefEq n xs ys) :
    PrefEq n (conv1dValid w k (pad ++ xs)) (conv1dValid w k (pad ++ ys)) := by
  obtain ⟨h1, h2⟩ := h
  have hlen : (pad ++ xs).length = (pad ++ ys).length := by simp [h1]
  refine ⟨by simp [conv1dValid_length, h1], ?_⟩
  rw [conv1dValid, conv1dValid, hlen, ← List.map_take, ← List.map_take,
    List.take_range]
  apply List.map_congr_left
  intro t ht
  have htn : t < n := by
    have := List.mem_range.1 ht
    omega
  apply congrArg (convAt w)
  apply window_take_eq
  have hsplit : t + k = pad.length + (t + 1) := by omega
  rw [hsplit, List.take_append, List.take_append]
  have htake : xs.take (t + 1) = ys.take (t + 1) := by
    have h3 : t + 1 ≤ n := htn
    calc xs.take (t + 1) = (xs.take n).take (t + 1) := by
          rw [List.take_take, min_eq_left h3]
    _ = (ys.take n).take (t + 1) := by rw [h2]
    _ = ys.take (t + 1) := by rw [List.take_take, min_eq_left h3]
  rw [htake]

theorem calculateAttention_prefEq (expf : α → α) (cfg : DecoderCfg α)
    (eC eCb : List (List α)) {n : ℕ} {emb1 emb2 conv1 conv2 : List (List α)}
    (hemb : PrefEq n emb1 emb2) (hconv : PrefEq n conv1 conv2) :
    PrefEq n (calculateAttention expf cfg emb1 conv1 eC eCb).1
      (calculateAttention expf cfg emb2 conv2 eC eCb).1 ∧
    PrefEq n (calculateAttention expf cfg emb1 conv1 eC eCb).2
      (calculateAttention expf cfg emb2 conv2 eC eCb).2 := by
  have hconvedEmb := hconv.map (linearLayer cfg.attnHid2embW cfg.attnHid2embB)
  have hcombined := resScale_prefEq cfg.scale hconvedEmb hemb
  have henergy := hcombined.map fun q => eC.map fun kv => dotp q kv
  have hattn := henergy.map (softmaxRow expf)
  have hattended := hattn.map fun arow => matVec cfg.embDim arow eCb
  have hattended' := hattended.map (linearLayer cfg.attnEmb2hidW cfg.attnEmb2hidB)
  exact ⟨hattn, resScale_prefEq cfg.scale hconv hattended'⟩

theorem decoderBlock_prefEq (sig expf : α → α) (cfg : DecoderCfg α) (m : ℕ → ℕ → α)
    (eC eCb : List (List α)) (w : Conv1dW α) {n : ℕ} {emb1 emb2 x1 x2 : List (List α)}
    (hk : 1 ≤ cfg.kernelSize) (hemb : PrefEq n emb1 emb2) (hx : PrefEq n x1 x2) :
    PrefEq n (decoderBlock sig expf cfg m eC eCb emb1 w x1).1
      (decoderBlock sig expf cfg m eC eCb emb2 w x2).1 ∧
    PrefEq n (decoderBlock sig expf cfg m eC eCb emb1 w x1).2
      (decoderBlock sig expf cfg m eC eCb emb2 w x2).2 := by
  have hx' := dropoutApply_prefEq m hx
  have hpad : (decoderPadding cfg (α := α)).length + 1 = cfg.kernelSize := by
    rw [decoderPadding_length]; omega
  have hconv := conv1dValid_front_pad_prefEq w cfg.kernelSize n (decoderPadding cfg) hpad hx'
  have hglu := hconv.map (gluVec sig)
  have hattn := calculateAttention_prefEq expf cfg eC eCb hemb hglu
  exact ⟨hattn.1, resScale_prefEq cfg.scale hattn.2 hx'⟩

theorem decoderBlocks_prefEq (sig expf : α → α) (cfg : DecoderCfg α) (m : Masks α)
    (eC eCb : List (List α)) {n : ℕ} {emb1 emb2 : List (List α)}
    (hk : 1 ≤ cfg.kernelSize) (hemb : PrefEq n emb1 emb2) :
    ∀ (ws : List (Conv1dW α)) (i : ℕ) (s1 s2 : List (List α) × List (List α)),
      PrefEq n s1.2 s2.2 →
      PrefEq n (decoderBlocks sig expf cfg m eC eCb emb1 i ws s1).2
        (decoderBlocks sig expf cfg m eC eCb emb2 i ws s2).2 := by
  intro ws
  induction ws with
  | nil => intro i s1 s2 h; exact h
  | cons w ws ih =>
      intro i s1 s2 h
      exact ih (i + 1) _ _
        (decoderBlock_prefEq sig expf cfg (m i) eC eCb w hk hemb h).2

theorem embedTokens_prefEq (tT pT : List (List α)) (m : ℕ → ℕ → α) {n : ℕ}
    {t1 t2 : List ℕ} (h : PrefEq n t1 t2) :
    PrefEq n (embedTokens tT pT m t1) (embedTokens tT pT m t2) := by
  obtain ⟨h1, h2⟩ := h
  apply dropoutApply_prefEq
  apply PrefEq.zipWith
  · exact PrefEq.map _ ⟨h1, h2⟩
  · rw [h1]
    exact PrefEq.refl _ _

-- ### C1 -------------------------------------------------------------------

/-- C1: with dropout disabled, the decoder's output logits at position `i`
are invariant to changes of target tokens at positions strictly greater than
`i`: for fixed encoder outputs, two equal-length targets that agree up to
position `i` yield the same first `i + 1` rows of `Decoder.forward`'s output
— causal front padding keeps every block's output at `i` a function of input
positions `≤ i`. -/
theorem decoder_causal_masking (sig expf : α → α) (cfg : DecoderCfg α)
    (eC eCb : List (List α)) (trg trg' : List ℕ) (i : ℕ)
    (hk : 1 ≤ cfg.kernelSize) (hlen : trg.length = trg'.length)
    (hpre : trg.take (i + 1) = trg'.take (i + 1)) :
    (decoderForward sig expf cfg noDropout trg eC eCb).1.take (i + 1) =
      (decoderForward sig expf cfg noDropout trg' eC eCb).1.take (i + 1) := by
  have hemb := embedTokens_prefEq cfg.tokEmbedding cfg.posEmbedding (noDropout 0)
    (⟨hlen, hpre⟩ : PrefEq (i + 1) trg trg')
  have hconvInput := hemb.map (linearLayer cfg.emb2hidW cfg.emb2hidB)
  have hblocks := decoderBlocks_prefEq sig expf cfg noDropout eC eCb hk hemb cfg.convs 1
    ([], (embedTokens cfg.tokEmbedding cfg.posEmbedding (noDropout 0) trg).map
      (linearLayer cfg.emb2hidW cfg.emb2hidB))
    ([], (embedTokens cfg.tokEmbedding cfg.posEmbedding (noDropout 0) trg').map
      (linearLayer cfg.emb2hidW cfg.emb2hidB))
    hconvInput
  have hconved := hblocks.map (linearLayer cfg.hid2embW cfg.hid2embB)
  have hdrop := dropoutApply_prefEq (noDropout (cfg.convs.length + 1)) hconved
  have hout := hdrop.map (linearLayer cfg.fcOutW cfg.fcOutB)
  exact hout.2

/-- Witness for `decoder_causal_masking`: targets `[0, 1]` and `[0, 2]` differ
only at position 1, and the first logit rows coincide. -/
theorem decoder_causal_masking_witness :
    (decoderForward id (fun _ => (1 : ℚ)) qDec3 noDropout [0, 1] [[1]] [[1]]).1.take 1 =
      (decoderForward id (fun _ => (1 : ℚ)) qDec3 noDropout [0, 2] [[1]] [[1]]).1.take 1 :=
  decoder_causal_masking id (fun _ => 1) qDec3 [[1]] [[1]] [0, 1] [0, 2] 0
    (by decide) rfl rfl

-- ### C2 -------------------------------------------------------------------

/-- C2: for a well-formed encoder with an odd kernel size and a valid input
(token indices in vocabulary range, length at most `max_length`), both outputs
of `Encoder.forward` — `conved` and `combined` — have sequence length equal to
the input length and rows of width `emb_dim`; symmetric padding preserves the
length through every convolutional block. -/
theorem encoder_output_shape (sig : α → α) (cfg : EncoderCfg α) (m : Masks α)
    (src : List ℕ) (hwf : EncoderWF cfg) (hodd : cfg.kernelSize % 2 = 1)
    (htok : ∀ t ∈ src, t < cfg.inputDim) (hlen : src.length ≤ cfg.maxLength) :
    (encoderForward sig cfg m src).1.length = src.length ∧
    (∀ r ∈ (encoderForward sig cfg m src).1, r.length = cfg.embDim) ∧
    (encoderForward sig cfg m src).2.length = src.length ∧
    (∀ r ∈ (encoderForward sig cfg m src).2, r.length = cfg.embDim) := by
  have hembLen :
      (embedTokens cfg.tokEmbedding cfg.posEmbedding (m 0) src).length = src.length :=
    embedTokens_length cfg.tokEmbedding cfg.posEmbedding (m 0) src
  have hembRows :
      ∀ r ∈ embedTokens cfg.tokEmbedding cfg.posEmbedding (m 0) src,
        r.length = cfg.embDim :=
    embedTokens_row_length cfg.tokEmbedding cfg.posEmbedding (m 0) src cfg.embDim
      hwf.tok_rows hwf.pos_rows (fun t ht => hwf.tok_len ▸ htok t ht)
      (le_trans hlen (le_of_eq hwf.pos_len.symm))
  have hconvedLen :
      (encoderForward sig cfg m src).1.length = src.length := by
    rw [encoderForward]
    simpa [encoderBlocks_length sig cfg m hodd] using hembLen
  have hconvedRows :
      ∀ r ∈ (encoderForward sig cfg m src).1, r.length = cfg.embDim := by
    rw [encoderForward]
    intro r hr
    obtain ⟨x, _, rfl⟩ := List.mem_map.1 hr
    rw [linearLayer_length, hwf.h2eW_len, hwf.h2eB_len, min_self]
  refine ⟨hconvedLen, hconvedRows, ?_, ?_⟩
  · show (resScale cfg.scale _ _).length = src.length
    rw [resScale_length]
    have h1 := hconvedLen
    rw [encoderForward] at h1
    rw [h1, hembLen, min_self]
  · show ∀ r ∈ resScale cfg.scale _ _, r.length = cfg.embDim
    apply resScale_row_length
    · have h1 := hconvedRows
      rw [encoderForward] at h1
      exact h1
    · exact hembRows

/-- Witness for `encoder_output_shape` on `qEnc3` with source `[0, 1]`. -/
theorem encoder_output_shape_witness :
    (encoderForward id qEnc3 noDropout [0, 1]).1.length = 2 ∧
    (∀ r ∈ (encoderForward id qEnc3 noDropout [0, 1]).1, r.length = 1) ∧
    (encoderForward id qEnc3 noDropout [0, 1]).2.length = 2 ∧
    (∀ r ∈ (encoderForward id qEnc3 noDropout [0, 1]).2, r.length = 1) :=
  encoder_output_shape id qEnc3 noDropout [0, 1]
    ⟨rfl, by decide, rfl, by decide, rfl, rfl, rfl, rfl⟩ rfl (by decide) (by decide)

-- ### C3 -------------------------------------------------------------------

/-- C3: `Encoder.__init__` contains `assert kernel_size % 2 == 1`, so encoder
construction fails for every even kernel size and succeeds for every odd one;
`Decoder.__init__` has no kernel-size check, so decoder construction succeeds
for every kernel size (in particular even ones). -/
theorem kernel_size_construction
    (inputDim outputDim embDim hidDim kernelSize maxLength trgPadIdx : ℕ)
    (dropoutP scale : α) (tokE posE e2hW h2eW a1W a2W foW : List (List α))
    (e2hB h2eB a1B a2B foB : List α) (convs : List (Conv1dW α)) :
    (kernelSize % 2 = 0 →
      (encoderInit inputDim embDim hidDim kernelSize maxLength dropoutP scale
        tokE posE e2hW e2hB h2eW h2eB convs).isNone = true) ∧
    (kernelSize % 2 = 1 →
      (encoderInit inputDim embDim hidDim kernelSize maxLength dropoutP scale
        tokE posE e2hW e2hB h2eW h2eB convs).isSome = true) ∧
    (decoderInit outputDim embDim hidDim kernelSize maxLength trgPadIdx dropoutP scale
        tokE posE e2hW e2hB h2eW h2eB a1W a1B a2W a2B foW foB convs).isSome = true := by
  refine ⟨fun h => ?_, fun h => ?_, rfl⟩
  · rw [encoderInit, if_neg (by omega)]
    rfl
  · rw [encoderInit, if_pos h]
    rfl

/-- Witness for `kernel_size_construction` at kernel sizes 4 (even) and 3 (odd). -/
theorem kernel_size_construction_witness :
    (encoderInit 1 1 1 4 1 (0 : ℚ) 1 [] [] [] [] [] [] []).isNone = true ∧
    (encoderInit 1 1 1 3 1 (0 : ℚ) 1 [] [] [] [] [] [] []).isSome = true ∧
    (decoderInit 1 1 1 4 1 0 (0 : ℚ) 1 [] [] [] [] [] [] [] [] [] [] [] [] []).isSome = true :=
  ⟨(kernel_size_construction 1 1 1 1 4 1 0 (0 : ℚ) 1 [] [] [] [] [] [] [] [] [] [] [] []
      []).1 rfl,
   (kernel_size_construction 1 1 1 1 3 1 0 (0 : ℚ) 1 [] [] [] [] [] [] [] [] [] [] [] []
      []).2.1 rfl,
   (kernel_size_construction 1 1 1 1 4 1 0 (0 : ℚ) 1 [] [] [] [] [] [] [] [] [] [] [] []
      []).2.2⟩

-- ### C4 -------------------------------------------------------------------

/-- C4: every attention row produced by `Decoder.calculate_attention` is a
probability distribution over source positions — entries non-negative and
summing to exactly 1 — because `F.softmax` is applied along the source axis;
stated for any strictly positive exponential function and nonempty source. -/
theorem attention_rows_stochastic (expf : α → α) (cfg : DecoderCfg α)
    (embedded conved encoderConved encoderCombined : List (List α))
    (hpos : ∀ x, 0 < expf x) (hne : encoderConved ≠ []) :
    ∀ row ∈ (calculateAttention expf cfg embedded conved encoderConved encoderCombined).1,
      (∀ w ∈ row, 0 ≤ w) ∧ row.sum = 1 := by
  intro row hrow
  rw [calculateAttention_fst] at hrow
  obtain ⟨erow, herow, rfl⟩ := List.mem_map.1 hrow
  obtain ⟨q, _, rfl⟩ := List.mem_map.1 herow
  have hne' : (encoderConved.map fun kv => dotp q kv) ≠ [] := by
    intro hcontra
    exact hne (by simpa using hcontra)
  exact ⟨fun w hw => le_of_lt (softmaxRow_pos _ _ hpos hne' w hw),
    softmaxRow_sum _ _ hpos hne'⟩

/-- Witness for `attention_rows_stochastic` on `qDec3` with a two-position
source, instantiated at the concrete attention row `[1/2, 1/2]`. -/
theorem attention_rows_stochastic_witness :
    (∀ w ∈ [(1 : ℚ)/2, 1/2], 0 ≤ w) ∧ ([(1 : ℚ)/2, 1/2]).sum = 1 := by
  have hfst : (calculateAttention (fun _ => (1 : ℚ)) qDec3 [[0]] [[0]] [[1], [2]]
      [[1], [2]]).1 = [[1/2, 1/2]] := by
    norm_num [calculateAttention, resScale, linearLayer, dotp, softmaxRow, qDec3]
  have h := attention_rows_stochastic (fun _ => (1 : ℚ)) qDec3 [[0]] [[0]] [[1], [2]]
    [[1], [2]] (fun _ => one_pos) (by decide)
  exact h _ (hfst ▸ List.mem_singleton_self _)

-- ### C5 -------------------------------------------------------------------

/-- C5 (code bug): the source's `evaluate` contains no `model.eval()`; in the
epoch loop it runs right after `train`, whose first statement `model.train()`
set the training flag, so the dropout sites stay active during evaluation and
the evaluated logits depend on the random dropout draw — two runs drawing
different masks differ.  With the flag false (the spec's intended reading:
dropout only during training), the drawn masks are ignored and evaluation is
a deterministic function of input and parameters. -/
theorem evaluate_runs_with_dropout :
    (epochEvalModel qModel).training = true ∧
    evaluateLogits id (fun _ => 1) (epochEvalModel qModel) noDropout noDropout [1] [1] ≠
      evaluateLogits id (fun _ => 1) (epochEvalModel qModel) zeroMasks zeroMasks [1] [1] ∧
    ∀ mE mD mE' mD' : Masks ℚ,
      evaluateLogits id (fun _ => 1) qModel mE mD [1] [1] =
        evaluateLogits id (fun _ => 1) qModel mE' mD' [1] [1] := by
  refine ⟨rfl, ?_, fun mE mD mE' mD' => rfl⟩
  norm_num [evaluateLogits, seq2seqForward, modeMasks, epochEvalModel, setTrainMode, qModel,
    encoderForward, decoderForward, embedTokens, dropoutApply, dropoutRows, dropoutRow,
    posTensor, embLookup, linearLayer, dotp, encoderBlocks, encoderBlock, symPad, zeroVec,
    conv1dValid, convAt, Fglu, gluVec, resScale, decoderBlocks, decoderBlock, decoderPadded,
    decoderPadding, calculateAttention, softmaxRow, matVec, qEnc3, qDec3, qConv3, noDropout,
    zeroMasks, List.range_succ, List.replicate_succ]

-- ### C6 -------------------------------------------------------------------

/-- C6 (code bug): the epoch loop computes `valid_loss` with
`evaluate(model, train_iterator, criterion)`, i.e. on the training data, not
the validation data.  In this concrete run the loss on the validation data
strictly improves at epoch 2 (5 → 1), yet no checkpoint is written there
(`writes = [true, false]`) because the training-data loss did not improve, and
the parameters restored at the end are those of epoch 1, not of the epoch
with the best validation loss. -/
theorem checkpoint_tracks_training_loss :
    (runTraining 2 (fun p => p + 1) exLoss true 0).writes = [true, false] ∧
    exLoss 2 false < exLoss 1 false ∧
    loadBest (runTraining 2 (fun p => p + 1) exLoss true 0) = some 1 := by
  refine ⟨by decide, by decide, by decide⟩

-- ### C7 -------------------------------------------------------------------

/-- C7: every decoder block prepends exactly `kernel_size - 1` padding
positions — each a hidden-width row filled with the raw numeric target pad
index — appends nothing, and the valid convolution that follows returns a
sequence of the same length as the block's input. -/
theorem decoder_padding_spec (cfg : DecoderCfg α) (w : Conv1dW α) (x : List (List α))
    (hk : 1 ≤ cfg.kernelSize) :
    (decoderPadded cfg x).take (cfg.kernelSize - 1) =
      List.replicate (cfg.kernelSize - 1) (List.replicate cfg.hidDim (cfg.trgPadIdx : α)) ∧
    (decoderPadded cfg x).drop (cfg.kernelSize - 1) = x ∧
    (decoderPadded cfg x).length = (cfg.kernelSize - 1) + x.length ∧
    (conv1dValid w cfg.kernelSize (decoderPadded cfg x)).length = x.length := by
  have hlen : (decoderPadding cfg (α := α)).length = cfg.kernelSize - 1 :=
    decoderPadding_length cfg
  refine ⟨?_, ?_, ?_, ?_⟩
  · rw [decoderPadded, List.take_left' hlen]
    rfl
  · rw [decoderPadded, List.drop_left' hlen]
  · rw [decoderPadded, List.length_append, hlen]
  · rw [conv1dValid_length, decoderPadded, List.length_append, hlen]
    omega

/-- Witness for `decoder_padding_spec` on a kernel-size-3 configuration. -/
theorem decoder_padding_spec_witness :
    (decoderPadded qDec3 [[5], [6]]).take 2 = [[(0 : ℚ)], [0]] ∧
    (decoderPadded qDec3 [[5], [6]]).drop 2 = [[5], [6]] ∧
    (decoderPadded qDec3 [[5], [6]]).length = 2 + 2 ∧
    (conv1dValid qConv3 3 (decoderPadded qDec3 [[5], [6]])).length = 2 := by
  have h := decoder_padding_spec qDec3 qConv3 [[(5 : ℚ)], [6]] (by decide)
  simpa [qDec3, decoderPadding] using h

-- ### C8 -------------------------------------------------------------------

/-- C8: the scale constant equals √0.5; `Encoder.__init__` and
`Decoder.__init__` assign the identical constant, and the attention bridge
reads the decoder's `self.scale`; every residual sum in the model — the
encoder block residual, the encoder `combined`, the decoder block residual,
and the two residual sites inside `calculate_attention` — is an application
of `resScale`, which multiplies the sum by the scale elementwise. -/
theorem scale_constant_everywhere :
    encoderScaleConst = Real.sqrt 0.5 ∧
    decoderScaleConst = encoderScaleConst ∧
    (∀ (s : ℝ) (xs ys : List (List ℝ)),
      resScale s xs ys =
        List.zipWith (fun u v => List.zipWith (fun a b => (a + b) * s) u v) xs ys) ∧
    (∀ (sig : ℝ → ℝ) (cfg : EncoderCfg ℝ) (m : ℕ → ℕ → ℝ) (w : Conv1dW ℝ)
      (x : List (List ℝ)),
      encoderBlock sig cfg m w x =
        resScale cfg.scale
          (Fglu sig (conv1dValid w cfg.kernelSize
            (symPad ((cfg.kernelSize - 1) / 2) cfg.hidDim (dropoutApply m x)))) x) ∧
    (∀ (sig : ℝ → ℝ) (cfg : EncoderCfg ℝ) (m : Masks ℝ) (src : List ℕ),
      (encoderForward sig cfg m src).2 =
        resScale cfg.scale (encoderForward sig cfg m src).1
          (embedTokens cfg.tokEmbedding cfg.posEmbedding (m 0) src)) ∧
    (∀ (sig expf : ℝ → ℝ) (cfg : DecoderCfg ℝ) (m : ℕ → ℕ → ℝ)
      (eC eCb emb : List (List ℝ)) (w : Conv1dW ℝ) (x : List (List ℝ)),
      (decoderBlock sig expf cfg m eC eCb emb w x).2 =
        resScale cfg.scale
          (calculateAttention expf cfg emb
            (Fglu sig (conv1dValid w cfg.kernelSize (decoderPadded cfg (dropoutApply m x))))
            eC eCb).2
          (dropoutApply m x)) ∧
    (∀ (expf : ℝ → ℝ) (cfg : DecoderCfg ℝ) (emb conved eC eCb : List (List ℝ)),
      (calculateAttention expf cfg emb conved eC eCb).1 =
        ((resScale cfg.scale (conved.map (linearLayer cfg.attnHid2embW cfg.attnHid2embB))
            emb).map fun q => eC.map fun kv => dotp q kv).map (softmaxRow expf)) ∧
    (∀ (expf : ℝ → ℝ) (cfg : DecoderCfg ℝ) (emb conved eC eCb : List (List ℝ)),
      (calculateAttention expf cfg emb conved eC eCb).2 =
        resScale cfg.scale conved
          (((calculateAttention expf cfg emb conved eC eCb).1.map
              fun arow => matVec cfg.embDim arow eCb).map
            (linearLayer cfg.attnEmb2hidW cfg.attnEmb2hidB))) :=
  ⟨rfl, rfl, fun _ _ _ => rfl, fun _ _ _ _ _ => rfl, fun _ _ _ _ => rfl,
   fun _ _ _ _ _ _ _ _ _ => rfl, fun _ _ _ _ _ _ => rfl, fun _ _ _ _ _ _ => rfl⟩

-- ### C9 -------------------------------------------------------------------

/-- C9: the forward passes build the position list `0, …, len-1`
(`torch.arange(0, len)`) unconditionally; when the input length is at most
`max_length` every index is below the position-table size and every lookup
succeeds, and nothing rejects or truncates a longer input — the model still
emits one index per position and the out-of-range lookup fails rather than
being clamped. -/
theorem position_indices_in_range (srcLen maxLength : ℕ) (table : List (List α))
    (htable : table.length = maxLength) :
    (posTensor srcLen).length = srcLen ∧
    (srcLen ≤ maxLength →
      ∀ i ∈ posTensor srcLen, i < maxLength ∧ (embLookupChecked table i).isSome = true) ∧
    (maxLength < srcLen →
      ∃ i ∈ posTensor srcLen, (embLookupChecked table i).isNone = true) := by
  refine ⟨by simp [posTensor], ?_, ?_⟩
  · intro hle i hi
    have hiLt : i < srcLen := by simpa [posTensor] using hi
    have h2 : i < table.length := by omega
    refine ⟨by omega, ?_⟩
    simp [embLookupChecked, List.getElem?_eq_getElem h2]
  · intro hlt
    refine ⟨maxLength, ?_, ?_⟩
    · simp only [posTensor, List.mem_range]
      omega
    · simp [embLookupChecked, List.getElem?_eq_none (le_of_eq htable)]

/-- Witness for `position_indices_in_range` on the table of `qEnc3`
(`max_length = 4`): an in-range input of length 2 and an over-long input of
length 6. -/
theorem position_indices_in_range_witness :
    (∀ i ∈ posTensor 2, i < 4 ∧ (embLookupChecked qEnc3.posEmbedding i).isSome = true) ∧
    ∃ i ∈ posTensor 6, (embLookupChecked qEnc3.posEmbedding i).isNone = true :=
  ⟨(position_indices_in_range 2 4 qEnc3.posEmbedding rfl).2.1 (by decide),
   (position_indices_in_range 6 4 qEnc3.posEmbedding rfl).2.2 (by decide)⟩

-- ### C10 ------------------------------------------------------------------

/-- C10: the decoder's attention masks no source positions: the softmax runs
over the entire source axis, so each attention row has exactly one weight per
source position and every weight — including those at positions holding the
source pad token — is strictly positive. -/
theorem attention_unmasked_all_positive (expf : α → α) (cfg : DecoderCfg α)
    (embedded conved encoderConved encoderCombined : List (List α))
    (hpos : ∀ x, 0 < expf x) (hne : encoderConved ≠ []) :
    ∀ row ∈ (calculateAttention expf cfg embedded conved encoderConved encoderCombined).1,
      row.length = encoderConved.length ∧ ∀ w ∈ row, 0 < w := by
  intro row hrow
  rw [calculateAttention_fst] at hrow
  obtain ⟨erow, herow, rfl⟩ := List.mem_map.1 hrow
  obtain ⟨q, _, rfl⟩ := List.mem_map.1 herow
  have hne' : (encoderConved.map fun kv => dotp q kv) ≠ [] := by
    intro hcontra
    exact hne (by simpa using hcontra)
  constructor
  · rw [softmaxRow_length]
    simp
  · exact softmaxRow_pos _ _ hpos hne'

/-- Witness for `attention_unmasked_all_positive` on `qDec3` with a
three-position source whose last two positions hold the pad representation,
instantiated at the concrete attention row `[1/3, 1/3, 1/3]`. -/
theorem attention_unmasked_all_positive_witness :
    ([(1 : ℚ)/3, 1/3, 1/3]).length = 3 ∧ ∀ w ∈ [(1 : ℚ)/3, 1/3, 1/3], 0 < w := by
  have hfst : (calculateAttention (fun _ => (1 : ℚ)) qDec3 [[1]] [[1]] [[2], [0], [0]]
      [[2], [0], [0]]).1 = [[1/3, 1/3, 1/3]] := by
    norm_num [calculateAttention, resScale, linearLayer, dotp, softmaxRow, qDec3]
  have h := attention_unmasked_all_positive (fun _ => (1 : ℚ)) qDec3 [[1]] [[1]]
    [[2], [0], [0]] [[2], [0], [0]] (fun _ => one_pos) (by decide)
  exact h _ (hfst ▸ List.mem_singleton_self _)
